import Mathlib

/-!
# Verification of the pic2pdf core against its specification

Shallow embedding of the image-collection, selection and PDF-creation logic
of the pic2pdf application (Python sources under `src/`), together with
theorems settling the specification claims.

Python `float` arithmetic is modelled exactly over `ℚ`; Python `int(x)`
(truncation toward zero) is modelled by `pyInt`.
-/

namespace Pic2Pdf

/-- Python `int(x)`: truncation toward zero.  Uses the computable
`Rat.floor` so that concrete instances evaluate inside the kernel. -/
def pyInt (q : ℚ) : Int :=
  if 0 ≤ q then q.floor else -(-q).floor

theorem rat_floor_eq_intFloor (q : ℚ) : q.floor = ⌊q⌋ := by
  rw [Rat.floor_def, Rat.floor_def']

theorem pyInt_eq_floor (q : ℚ) (h : 0 ≤ q) : pyInt q = ⌊q⌋ := by
  rw [pyInt, if_pos h, rat_floor_eq_intFloor]

/-! ## ImageManager (`src/src/models/image_manager.py`)

`self.images` is a Python list; indices arriving from callers are Python
ints, modelled as `Int`.
-/

/-- One iteration of the removal loop of `ImageManager.remove_images`:
`if 0 <= index < len(self.images): self.images.pop(index)`. -/
def eraseStep {α : Type} (acc : List α) (i : Int) : List α :=
  if 0 ≤ i ∧ i.toNat < acc.length then acc.eraseIdx i.toNat else acc

/-- `ImageManager.remove_images(indices)`:
`for index in sorted(indices, reverse=True): if 0 <= index < len(self.images): self.images.pop(index)`.
Python's `sorted(indices, reverse=True)` on ints is modelled by an insertion
sort with the relation `b ≤ a` (descending); on a list of integers every
correct sort produces the same list. -/
def remove_images {α : Type} (l : List α) (indices : List Int) : List α :=
  (List.insertionSort (fun a b : Int => b ≤ a) indices).foldl eraseStep l

/-- `ImageManager.move_image(from_index, to_index)`:
guarded `item = self.images.pop(from_index); self.images.insert(to_index, item)`.
The `none` branch of the match is unreachable under the guard. -/
def move_image {α : Type} (l : List α) (fromIdx toIdx : Int) : List α :=
  if 0 ≤ fromIdx ∧ fromIdx < (l.length : Int) ∧ 0 ≤ toIdx ∧
      toIdx < (l.length : Int) ∧ fromIdx ≠ toIdx then
    match l[fromIdx.toNat]? with
    | some item => List.insertIdx toIdx.toNat item (l.eraseIdx fromIdx.toNat)
    | none => l
  else l

/-- Helper for the spec-side description of `removeAt`: walk the list with a
running position counter, dropping every element whose position occurs in
`indices`. -/
def keepAux {α : Type} (indices : List Int) : Nat → List α → List α
  | _, [] => []
  | p, a :: as =>
      if (p : Int) ∈ indices then keepAux indices (p + 1) as
      else a :: keepAux indices (p + 1) as

/-- Spec-side description of `removeAt(indices)`: the list with exactly the
entries at (in-range) positions listed in `indices` removed, order preserved. -/
def removeAtSpec {α : Type} (l : List α) (indices : List Int) : List α :=
  keepAux indices 0 l

/-- Number of in-range indices in `indices` with respect to a list of length `n`. -/
def inRangeCount (n : Nat) (indices : List Int) : Nat :=
  (indices.filter (fun i => decide (0 ≤ i ∧ i < (n : Int)))).length

/-! ## Basic permutation helpers -/

theorem insertIdx_perm_cons {α : Type} (a : α) :
    ∀ (n : ℕ) (l : List α), n ≤ l.length → List.Perm (List.insertIdx n a l) (a :: l)
  | 0, l, _ => by rw [List.insertIdx_zero]
  | n + 1, [], h => by simp at h
  | n + 1, b :: t, h => by
      rw [List.insertIdx_succ_cons]
      exact ((insertIdx_perm_cons a n t (by simpa using h)).cons b).trans
        (List.Perm.swap a b t)

theorem perm_cons_getD_eraseIdx {α : Type} (d : α) :
    ∀ (l : List α) (n : ℕ), n < l.length → List.Perm l (l.getD n d :: l.eraseIdx n)
  | [], n, h => absurd h (by simp)
  | a :: t, 0, _ => by simp
  | a :: t, n + 1, h => by
      have ih := perm_cons_getD_eraseIdx d t n (by simpa using h)
      exact (ih.cons a).trans (List.Perm.swap _ a _)

/-! ## C2: `move_image` pops and reinserts; silent no-op outside the guard -/

/-- C2: for every collection and indices, `move_image` pops the entry at
`from_index` and reinserts it at `to_index` when both indices are in range
and distinct (in particular the multiset of elements is preserved), and it
returns the collection unchanged whenever `from_index = to_index` or either
index is negative or at least the current length. -/
theorem move_image_correct {α : Type} [Inhabited α] (l : List α) (f t : Int) :
    List.Perm (move_image l f t) l ∧
    (¬(0 ≤ f ∧ f < (l.length : Int) ∧ 0 ≤ t ∧ t < (l.length : Int) ∧ f ≠ t) →
      move_image l f t = l) ∧
    ((0 ≤ f ∧ f < (l.length : Int) ∧ 0 ≤ t ∧ t < (l.length : Int) ∧ f ≠ t) →
      move_image l f t =
        List.insertIdx t.toNat (l.getD f.toNat default) (l.eraseIdx f.toNat)) := by
  by_cases h : 0 ≤ f ∧ f < (l.length : Int) ∧ 0 ≤ t ∧ t < (l.length : Int) ∧ f ≠ t
  · obtain ⟨hf0, hfl, ht0, htl, hne⟩ := h
    have hfn : f.toNat < l.length := by omega
    have htn : t.toNat < l.length := by omega
    have hget : l[f.toNat]? = some (l.getD f.toNat default) := by
      rw [List.getElem?_eq_getElem hfn, List.getD_eq_getElem l default hfn]
    have heq : move_image l f t =
        List.insertIdx t.toNat (l.getD f.toNat default) (l.eraseIdx f.toNat) := by
      rw [move_image, if_pos ⟨hf0, hfl, ht0, htl, hne⟩, hget]
    refine ⟨?_, fun hc => absurd ⟨hf0, hfl, ht0, htl, hne⟩ hc, fun _ => heq⟩
    rw [heq]
    have hlen : (l.eraseIdx f.toNat).length = l.length - 1 := by
      rw [List.length_eraseIdx]
      simp [hfn]
    have h1 : List.Perm (List.insertIdx t.toNat (l.getD f.toNat default) (l.eraseIdx f.toNat))
        (l.getD f.toNat default :: l.eraseIdx f.toNat) :=
      insertIdx_perm_cons _ _ _ (by omega)
    exact h1.trans (perm_cons_getD_eraseIdx default l f.toNat hfn).symm
  · have heq : move_image l f t = l := by rw [move_image, if_neg h]
    exact ⟨by rw [heq], fun _ => heq, fun hc => absurd hc h⟩

/-- Witness for C2 at concrete inputs: a valid move `0 → 2` on a 3-element
collection, and a silent no-op for an out-of-range `from_index`. -/
theorem move_image_correct_witness :
    move_image [10, 20, 30] (0 : Int) 2 = [20, 30, 10] ∧
    move_image [10, 20, 30] (5 : Int) 1 = [10, 20, 30] := by
  constructor
  · have h := (move_image_correct [10, 20, 30] (0 : Int) 2).2.2 (by decide)
    rw [h]; decide
  · exact (move_image_correct [10, 20, 30] (5 : Int) 1).2.1 (by decide)

/-! ## C4: `remove_images` machinery -/

theorem keepAux_of_lt {α : Type} (idxs : List Int) :
    ∀ (l : List α) (p : ℕ), (∀ j ∈ idxs, j < (p : Int)) → keepAux idxs p l = l := by
  intro l
  induction l with
  | nil => intro p _; rfl
  | cons a as ih =>
    intro p hp
    have hmem : ¬((p : Int) ∈ idxs) := fun hc => absurd (hp _ hc) (lt_irrefl _)
    simp only [keepAux, if_neg hmem]
    rw [ih (p + 1) (fun j hj => lt_trans (hp j hj) (by push_cast; omega))]

theorem keepAux_congr_mem {α : Type} (idxs idxs' : List Int)
    (h : ∀ x : Int, x ∈ idxs ↔ x ∈ idxs') :
    ∀ (l : List α) (p : ℕ), keepAux idxs p l = keepAux idxs' p l := by
  intro l
  induction l with
  | nil => intro p; rfl
  | cons a as ih =>
    intro p
    by_cases hp : (p : Int) ∈ idxs
    · simp only [keepAux, if_pos hp, if_pos ((h _).mp hp), ih]
    · simp only [keepAux, if_neg hp, if_neg (fun hc => hp ((h _).mpr hc)), ih]

theorem keepAux_cons_of_notin {α : Type} (idxs : List Int) (i : Int) :
    ∀ (l : List α) (p : ℕ), (∀ q : ℕ, p ≤ q → q < p + l.length → (q : Int) ≠ i) →
      keepAux (i :: idxs) p l = keepAux idxs p l := by
  intro l
  induction l with
  | nil => intro p _; rfl
  | cons a as ih =>
    intro p hq
    have hpi : (p : Int) ≠ i := hq p le_rfl (by simp)
    have hrec : keepAux (i :: idxs) (p + 1) as = keepAux idxs (p + 1) as :=
      ih (p + 1) (fun q h1 h2 => hq q (by omega) (by simp at h2 ⊢; omega))
    by_cases hp : (p : Int) ∈ idxs
    · have hp' : (p : Int) ∈ i :: idxs := List.mem_cons_of_mem i hp
      simp only [keepAux, if_pos hp, if_pos hp', hrec]
    · have hp' : ¬((p : Int) ∈ i :: idxs) := by
        intro hc
        rcases List.mem_cons.mp hc with h | h
        · exact hpi h
        · exact hp h
      simp only [keepAux, if_neg hp, if_neg hp', hrec]

theorem keepAux_eraseIdx {α : Type} (rest : List Int) :
    ∀ (l : List α) (p k : ℕ), p ≤ k → k < p + l.length →
      (∀ j ∈ rest, j < (k : Int)) →
      keepAux rest p (l.eraseIdx (k - p)) = keepAux ((k : Int) :: rest) p l := by
  intro l
  induction l with
  | nil => intro p k h1 h2 _; simp at h2; omega
  | cons a as ih =>
    intro p k hpk hk hrest
    by_cases hpk' : p = k
    · subst hpk'
      have h0 : p - p = 0 := Nat.sub_self p
      rw [h0, List.eraseIdx_cons_zero]
      have hmem : (p : Int) ∈ (p : Int) :: rest := List.mem_cons_self _ _
      have hL : keepAux rest p as = as :=
        keepAux_of_lt rest as p (fun j hj => hrest j hj)
      have hR : keepAux ((p : Int) :: rest) (p + 1) as = as := by
        refine keepAux_of_lt _ as (p + 1) ?_
        intro j hj
        rcases List.mem_cons.mp hj with h | h
        · rw [h]; push_cast; omega
        · have := hrest j h; push_cast; push_cast at this; omega
      simp only [keepAux, if_pos hmem, hL, hR]
    · have hlt : p < k := lt_of_le_of_ne hpk hpk'
      have hsub : k - p = (k - (p + 1)) + 1 := by omega
      rw [hsub, List.eraseIdx_cons_succ]
      have hpi : (p : Int) ≠ (k : Int) := by
        intro hc
        exact hpk' (by exact_mod_cast hc)
      have hmem : ((p : Int) ∈ (k : Int) :: rest) ↔ (p : Int) ∈ rest := by
        constructor
        · intro hc
          rcases List.mem_cons.mp hc with h | h
          · exact absurd h hpi
          · exact h
        · exact List.mem_cons_of_mem _
      have hrec : keepAux rest (p + 1) (as.eraseIdx (k - (p + 1))) =
          keepAux ((k : Int) :: rest) (p + 1) as :=
        ih (p + 1) k (by omega) (by simp at hk ⊢; omega) hrest
      by_cases hp : (p : Int) ∈ rest
      · simp only [keepAux, if_pos hp, if_pos (hmem.mpr hp), hrec]
      · simp only [keepAux, if_neg hp, if_neg (fun hc => hp (hmem.mp hc)), hrec]

theorem foldl_eraseStep_eq {α : Type} :
    ∀ (idxs : List Int) (l : List α), List.Pairwise (fun a b : Int => b < a) idxs →
      idxs.foldl eraseStep l = removeAtSpec l idxs
  | [], l, _ => (keepAux_of_lt [] l 0 (by simp)).symm
  | i :: rest, l, hp => by
      rw [List.foldl_cons]
      have h1 : ∀ j ∈ rest, j < i := (List.pairwise_cons.mp hp).1
      have h2 : List.Pairwise (fun a b : Int => b < a) rest := (List.pairwise_cons.mp hp).2
      rw [foldl_eraseStep_eq rest (eraseStep l i) h2]
      unfold removeAtSpec
      by_cases hg : 0 ≤ i ∧ i.toNat < l.length
      · have he : eraseStep l i = l.eraseIdx i.toNat := by rw [eraseStep, if_pos hg]
        have hcast : ((i.toNat : ℕ) : Int) = i := Int.toNat_of_nonneg hg.1
        have hkey := keepAux_eraseIdx rest l 0 i.toNat (Nat.zero_le _) (by omega)
          (fun j hj => by rw [hcast]; exact h1 j hj)
        rw [Nat.sub_zero] at hkey
        rw [he, hkey, hcast]
      · have he : eraseStep l i = l := by rw [eraseStep, if_neg hg]
        rw [he]
        refine (keepAux_cons_of_notin rest i l 0 ?_).symm
        intro q hq1 hq2 hqi
        apply hg
        constructor
        · rw [← hqi]; exact Int.natCast_nonneg q
        · rw [← hqi]; simpa using hq2

theorem keepAux_sublist {α : Type} (idxs : List Int) :
    ∀ (l : List α) (p : ℕ), List.Sublist (keepAux idxs p l) l := by
  intro l
  induction l with
  | nil => intro p; exact List.Sublist.refl []
  | cons a as ih =>
    intro p
    by_cases hp : (p : Int) ∈ idxs
    · simp only [keepAux, if_pos hp]
      exact (ih (p + 1)).cons a
    · simp only [keepAux, if_neg hp]
      exact (ih (p + 1)).cons₂ a

theorem keepAux_length {α : Type} (idxs : List Int) :
    ∀ (l : List α) (p : ℕ),
      (keepAux idxs p l).length +
        List.countP (fun q : ℕ => decide ((q : Int) ∈ idxs)) (List.range' p l.length) =
        l.length := by
  intro l
  induction l with
  | nil => intro p; rfl
  | cons a as ih =>
    intro p
    have hih := ih (p + 1)
    rw [List.length_cons, List.range'_succ, List.countP_cons]
    by_cases hp : (p : Int) ∈ idxs
    · simp only [keepAux, if_pos hp, decide_eq_true hp, if_true]
      omega
    · simp only [keepAux, if_neg hp, decide_eq_false hp, List.length_cons]
      have : (if (false = true) then 1 else 0) = 0 := rfl
      rw [this]
      omega

theorem countP_or_disjoint {α : Type} (p q : α → Bool) :
    ∀ l : List α, (∀ x ∈ l, ¬(p x = true ∧ q x = true)) →
      List.countP (fun x => p x || q x) l = List.countP p l + List.countP q l := by
  intro l
  induction l with
  | nil => intro _; rfl
  | cons a as ih =>
    intro h
    have ha := h a (List.mem_cons_self _ _)
    have has : ∀ x ∈ as, ¬(p x = true ∧ q x = true) :=
      fun x hx => h x (List.mem_cons_of_mem _ hx)
    simp only [List.countP_cons, ih has]
    cases hpa : p a <;> cases hqa : q a <;> simp_all <;> omega

theorem countP_eq_int_range (i : Int) :
    ∀ n : ℕ, List.countP (fun q : ℕ => decide ((q : Int) = i)) (List.range n) =
      if 0 ≤ i ∧ i < (n : Int) then 1 else 0 := by
  intro n
  induction n with
  | zero => rw [List.range_zero, List.countP_nil, if_neg (by omega)]
  | succ n ih =>
    rw [List.range_succ, List.countP_append, ih]
    simp only [List.countP_cons, List.countP_nil, decide_eq_true_eq]
    by_cases hni : (n : Int) = i
    · rw [if_pos hni, if_neg (by omega), if_pos (by constructor <;> omega)]
    · rw [if_neg hni]
      by_cases hi : 0 ≤ i ∧ i < (n : Int)
      · rw [if_pos hi, if_pos ⟨hi.1, by omega⟩]
      · rw [if_neg hi, if_neg (by intro hc; exact hi ⟨hc.1, by omega⟩)]

theorem inRangeCount_eq_countP (indices : List Int) (h : indices.Nodup) (n : ℕ) :
    inRangeCount n indices =
      List.countP (fun q : ℕ => decide ((q : Int) ∈ indices)) (List.range n) := by
  induction indices with
  | nil => simp [inRangeCount]
  | cons i rest ih =>
    have hnotmem : i ∉ rest := (List.nodup_cons.mp h).1
    have hnd : rest.Nodup := (List.nodup_cons.mp h).2
    have hcongr : List.countP (fun q : ℕ => decide ((q : Int) ∈ i :: rest)) (List.range n) =
        List.countP (fun q : ℕ => decide ((q : Int) = i) || decide ((q : Int) ∈ rest))
          (List.range n) := by
      apply List.countP_congr
      intro x _
      simp [List.mem_cons]
    have hdisj : ∀ x ∈ List.range n,
        ¬((fun q : ℕ => decide ((q : Int) = i)) x = true ∧
          (fun q : ℕ => decide ((q : Int) ∈ rest)) x = true) := by
      intro x _ hc
      obtain ⟨h1, h2⟩ := hc
      rw [decide_eq_true_eq] at h1 h2
      exact hnotmem (h1 ▸ h2)
    rw [hcongr, countP_or_disjoint _ _ _ hdisj, countP_eq_int_range, ← ih hnd]
    rw [inRangeCount, inRangeCount, List.filter_cons]
    by_cases hi : 0 ≤ i ∧ i < (n : Int)
    · rw [if_pos (by simpa using hi), if_pos hi]
      simp [Nat.add_comm]
    · rw [if_neg (by simpa using hi), if_neg hi]
      simp

theorem insertionSort_desc_pairwise (indices : List Int) (h : indices.Nodup) :
    List.Pairwise (fun a b : Int => b < a)
      (List.insertionSort (fun a b : Int => b ≤ a) indices) := by
  haveI ht : IsTotal Int (fun a b : Int => b ≤ a) := ⟨fun a b => le_total b a⟩
  haveI htr : IsTrans Int (fun a b : Int => b ≤ a) :=
    ⟨fun _ _ _ hab hbc => le_trans hbc hab⟩
  have hs := List.sorted_insertionSort (fun a b : Int => b ≤ a) indices
  have hnd : (List.insertionSort (fun a b : Int => b ≤ a) indices).Nodup :=
    ((List.perm_insertionSort _ indices).nodup_iff).mpr h
  exact (List.Pairwise.and hs hnd).imp
    (fun hab => lt_of_le_of_ne hab.1 (Ne.symm hab.2))

/-- C4 (amended: the indices must be pairwise distinct): `remove_images`
removes exactly the entries at in-range positions listed in `indices`
(descending internal processing keeps earlier removals from invalidating
later references), ignores out-of-range indices silently, shrinks the length
by the number of in-range indices, and leaves a subsequence of the original
order. -/
theorem remove_images_spec {α : Type} (l : List α) (indices : List Int)
    (h : indices.Nodup) :
    remove_images l indices = removeAtSpec l indices ∧
    (remove_images l indices).length = l.length - inRangeCount l.length indices ∧
    List.Sublist (remove_images l indices) l := by
  have hpair := insertionSort_desc_pairwise indices h
  have hmain : remove_images l indices = removeAtSpec l indices := by
    rw [remove_images, foldl_eraseStep_eq _ l hpair, removeAtSpec, removeAtSpec]
    exact keepAux_congr_mem _ _
      (fun x => (List.perm_insertionSort (fun a b : Int => b ≤ a) indices).mem_iff) l 0
  refine ⟨hmain, ?_, ?_⟩
  · rw [hmain, removeAtSpec]
    have hl := keepAux_length indices l 0
    rw [← List.range_eq_range'] at hl
    rw [inRangeCount_eq_countP indices h l.length]
    omega
  · rw [hmain, removeAtSpec]
    exact keepAux_sublist indices l 0

/-- Witness for C4 (amended) at scenario B's collection: removing index `1`
from a 3-element collection. -/
theorem remove_images_spec_witness :
    remove_images [10, 20, 30] [(1 : Int)] = [10, 30] ∧
    (remove_images [10, 20, 30] [(1 : Int)]).length = 3 - 1 := by
  have h := remove_images_spec [10, 20, 30] [(1 : Int)] (by decide)
  constructor
  · rw [h.1]; decide
  · rw [h.2.1]; decide

/-- C4 counterexample: with the duplicated index list `[0, 0]` the loop pops
position `0` twice, so the element originally at position `1` is removed as
well, contradicting "removes exactly the entries at in-range indices". -/
theorem remove_images_duplicates_counterexample :
    remove_images [10, 20, 30] [(0 : Int), 0] = [30] ∧
    removeAtSpec [10, 20, 30] [(0 : Int), 0] = [20, 30] ∧
    remove_images [10, 20, 30] [(0 : Int), 0] ≠
      removeAtSpec [10, 20, 30] [(0 : Int), 0] := by
  exact ⟨by decide, by decide, by decide⟩

/-! ## PreviewScreen (`src/src/gui/preview_screen.py`) and MainWindow
(`src/src/gui/main_window.py`)

The preview holds the displayed image list, a single selected index
(`selected_index`, a Python int or `None`) and the derived set
`selected_indices` (modelled as a list of members; the code keeps it equal
to `{selected_index}` or `set()`).  The thumbnail lists move in lockstep
with `images` and carry no extra information, so they are not modelled.
-/

structure PreviewState (α : Type) where
  images : List α
  selected_index : Option Int
  selected_indices : List Int

/-- `PreviewScreen.reorder_images(from_index, to_index)`: guarded pop/insert
on the image list, followed by the selection-index update and
`selected_indices = {selected_index} if selected_index is not None else set()`.
The `none` branch of the inner match is unreachable under the guards. -/
def reorder_images {α : Type} (s : PreviewState α) (fromIdx toIdx : Int) :
    PreviewState α :=
  if fromIdx = toIdx ∨ fromIdx < 0 ∨ toIdx < 0 then s
  else if (s.images.length : Int) ≤ fromIdx ∨ (s.images.length : Int) ≤ toIdx then s
  else
    let images' :=
      match s.images[fromIdx.toNat]? with
      | some item => List.insertIdx toIdx.toNat item (s.images.eraseIdx fromIdx.toNat)
      | none => s.images
    let sel' :=
      match s.selected_index with
      | none => none
      | some idx =>
          some (if idx = fromIdx then toIdx
                else if fromIdx < toIdx then
                  (if fromIdx < idx ∧ idx ≤ toIdx then idx - 1 else idx)
                else
                  (if toIdx ≤ idx ∧ idx < fromIdx then idx + 1 else idx))
    { images := images'
      selected_index := sel'
      selected_indices := match sel' with | some i => [i] | none => [] }

/-- Spec-side remap rule (§4.2 of the spec, quoted by C1), written from the
spec's words: `idx == from → to`; `from < to ∧ from < idx ≤ to → idx - 1`;
`from > to ∧ to ≤ idx < from → idx + 1`; otherwise unchanged. -/
def selectionRemapSpec (fromIdx toIdx idx : Int) : Int :=
  if idx = fromIdx then toIdx
  else if fromIdx < toIdx ∧ fromIdx < idx ∧ idx ≤ toIdx then idx - 1
  else if toIdx < fromIdx ∧ toIdx ≤ idx ∧ idx < fromIdx then idx + 1
  else idx

/-- `PreviewScreen.update_images(images)`: replaces the displayed list and
resets the selection (`selected_indices = set()`, `selected_index = None`). -/
def update_images {α : Type} (s : PreviewState α) (images : List α) :
    PreviewState α :=
  { s with images := images, selected_index := none, selected_indices := [] }

/-- `MainWindow.on_delete_images(indices)`: after the user confirms,
`ImageManager.remove_images(indices)` runs and, if images remain, the
preview is refreshed through `update_images` (which clears the selection);
if none remain the application returns to the home screen and the hidden
preview keeps its stale selection fields. -/
def on_delete_images {α : Type} (s : PreviewState α) (indices : List Int)
    (confirmed : Bool) : PreviewState α :=
  if indices = [] then s
  else if confirmed then
    let images' := remove_images s.images indices
    if images'.isEmpty then { s with images := images' }
    else update_images s images'
  else s

/-! ## C1: the reorder selection remap implements exactly the spec's rule -/

/-- C1: for every move between valid distinct indices, the code's selection
update equals the spec's single remap rule (`selectionRemapSpec`), both in
`selected_index` and in the derived `selected_indices` set. -/
theorem reorder_selection_remap {α : Type} (s : PreviewState α) (f t idx : Int)
    (hf0 : 0 ≤ f) (hf : f < (s.images.length : Int))
    (ht0 : 0 ≤ t) (ht : t < (s.images.length : Int)) (hne : f ≠ t)
    (hsel : s.selected_index = some idx) :
    (reorder_images s f t).selected_index = some (selectionRemapSpec f t idx) ∧
    (reorder_images s f t).selected_indices = [selectionRemapSpec f t idx] := by
  have hguard1 : ¬(f = t ∨ f < 0 ∨ t < 0) := by
    push_neg
    exact ⟨hne, hf0, ht0⟩
  have hguard2 : ¬((s.images.length : Int) ≤ f ∨ (s.images.length : Int) ≤ t) := by
    push_neg
    exact ⟨hf, ht⟩
  have hval : (if idx = f then t
      else if f < t then (if f < idx ∧ idx ≤ t then idx - 1 else idx)
      else (if t ≤ idx ∧ idx < f then idx + 1 else idx)) =
      selectionRemapSpec f t idx := by
    rw [selectionRemapSpec]
    split_ifs <;> omega
  simp only [reorder_images, if_neg hguard1, if_neg hguard2, hsel, hval]
  exact ⟨by trivial, by trivial⟩

/-- Witness for C1, scenario A's selection half: moving index 0 to index 2 in
a 3-element collection turns a prior selection `{0}` into `{2}`. -/
theorem reorder_selection_remap_witness :
    (reorder_images (⟨[10, 20, 30], some 0, [0]⟩ : PreviewState ℕ) 0 2).selected_index
        = some 2 ∧
    (reorder_images (⟨[10, 20, 30], some 0, [0]⟩ : PreviewState ℕ) 0 2).selected_indices
        = [2] := by
  have h := reorder_selection_remap (⟨[10, 20, 30], some 0, [0]⟩ : PreviewState ℕ)
    0 2 0 (by decide) (by decide) (by decide) (by decide) (by decide) rfl
  constructor
  · rw [h.1]; decide
  · rw [h.2]; decide

/-! ## C3: deletion clears the selection instead of remapping it -/

/-- C3 counterexample: a 3-element collection with selection `{0, 2}`;
removing index `1` yields the collection `[10, 30]` but the selection is
reset to the empty set, not remapped to `{0, 1}` (in particular `1` is not
selected afterwards). -/
theorem delete_selection_cleared_counterexample :
    (on_delete_images (⟨[10, 20, 30], some 0, [0, 2]⟩ : PreviewState ℕ)
        [1] true).images = [10, 30] ∧
    (on_delete_images (⟨[10, 20, 30], some 0, [0, 2]⟩ : PreviewState ℕ)
        [1] true).selected_indices = [] ∧
    ¬((1 : Int) ∈ (on_delete_images (⟨[10, 20, 30], some 0, [0, 2]⟩ : PreviewState ℕ)
        [1] true).selected_indices) := by
  exact ⟨by decide, by decide, by decide⟩

/-- C3 (amended): after a confirmed delete that leaves at least one image,
the collection is `remove_images images indices` and the selection is
cleared entirely (`selected_index = None`, `selected_indices = ∅`); no
decrement remapping is applied. -/
theorem delete_clears_selection {α : Type} (s : PreviewState α) (indices : List Int)
    (hne : indices ≠ []) (hrem : remove_images s.images indices ≠ []) :
    (on_delete_images s indices true).images = remove_images s.images indices ∧
    (on_delete_images s indices true).selected_index = none ∧
    (on_delete_images s indices true).selected_indices = [] := by
  have hempty : (remove_images s.images indices).isEmpty = false := by
    cases hcase : remove_images s.images indices with
    | nil => exact absurd hcase hrem
    | cons a as => rfl
  simp only [on_delete_images, if_neg hne, hempty, update_images, if_true,
    Bool.false_eq_true, if_false]
  exact ⟨by trivial, by trivial, by trivial⟩

/-- Witness for C3 (amended): deleting index 0 from a 3-element collection
with selection `{2}` leaves `[20, 30]` with an empty selection. -/
theorem delete_clears_selection_witness :
    (on_delete_images (⟨[10, 20, 30], some 2, [2]⟩ : PreviewState ℕ)
        [0] true).selected_index = none ∧
    (on_delete_images (⟨[10, 20, 30], some 2, [2]⟩ : PreviewState ℕ)
        [0] true).images = [20, 30] := by
  have h := delete_clears_selection (⟨[10, 20, 30], some 2, [2]⟩ : PreviewState ℕ)
    [0] (by decide) (by decide)
  exact ⟨h.2.1, by rw [h.1]; decide⟩

/-! ## Numeric helpers for `pyInt` -/

theorem pyInt_intCast (z : ℤ) : pyInt ((z : ℚ)) = z := by
  by_cases h : (0 : ℚ) ≤ (z : ℚ)
  · rw [pyInt_eq_floor _ h, Int.floor_intCast]
  · rw [pyInt, if_neg h, rat_floor_eq_intFloor]
    rw [show -((z : ℤ) : ℚ) = ((-z : ℤ) : ℚ) by push_cast; ring, Int.floor_intCast]
    ring

theorem pyInt_natCast (n : ℕ) : pyInt ((n : ℚ)) = n := by
  rw [pyInt_eq_floor _ (by positivity), Int.floor_natCast]

theorem pyInt_eval (q : ℚ) (z : ℤ) (h : q = (z : ℚ)) : pyInt q = z := by
  rw [h, pyInt_intCast]

theorem pyInt_nonneg (q : ℚ) (h : 0 ≤ q) : 0 ≤ pyInt q := by
  rw [pyInt_eq_floor q h]
  exact Int.floor_nonneg.mpr h

theorem pyInt_le (q : ℚ) (h : 0 ≤ q) : (pyInt q : ℚ) ≤ q := by
  rw [pyInt_eq_floor q h]
  exact Int.floor_le q

theorem lt_pyInt_add_one (q : ℚ) (h : 0 ≤ q) : q < pyInt q + 1 := by
  rw [pyInt_eq_floor q h]
  exact_mod_cast Int.lt_floor_add_one q

theorem pyInt_mono {a b : ℚ} (ha : 0 ≤ a) (hab : a ≤ b) : pyInt a ≤ pyInt b := by
  rw [pyInt_eq_floor a ha, pyInt_eq_floor b (le_trans ha hab)]
  exact Int.floor_le_floor hab

/-! ## PDFCreator configuration state (`src/src/utils/pdf_creator.py`)

The Python floats `8.27`, `11.69`, `0.5` and the margin/page-size arguments
are modelled exactly over `ℚ`; `int(x)` is `pyInt`.  The `debug` logger is
not modelled.
-/

structure PDFCreator where
  dpi : Int
  quality : Int
  page_width_inches : ℚ
  page_height_inches : ℚ
  page_width : Int
  page_height : Int
  margin : Int
  content_width : Int
  content_height : Int

/-- `PDFCreator.__init__(debug, dpi=300, quality=95)`: A4 page
(8.27 × 11.69 inches), 0.5-inch margins, derived pixel dimensions. -/
def PDFCreator.init (dpi quality : Int) : PDFCreator :=
  let page_width := pyInt ((827 / 100 : ℚ) * (dpi : ℚ))
  let page_height := pyInt ((1169 / 100 : ℚ) * (dpi : ℚ))
  let margin := pyInt ((1 / 2 : ℚ) * (dpi : ℚ))
  { dpi := dpi
    quality := quality
    page_width_inches := 827 / 100
    page_height_inches := 1169 / 100
    page_width := page_width
    page_height := page_height
    margin := margin
    content_width := page_width - 2 * margin
    content_height := page_height - 2 * margin }

/-- `PDFCreator.set_dpi(dpi)`: recomputes the page pixel dimensions from the
stored inch sizes and resets the margin to the default 0.5 inches at the new
DPI. -/
def PDFCreator.set_dpi (s : PDFCreator) (dpi : Int) : PDFCreator :=
  let page_width := pyInt (s.page_width_inches * (dpi : ℚ))
  let page_height := pyInt (s.page_height_inches * (dpi : ℚ))
  let margin := pyInt ((1 / 2 : ℚ) * (dpi : ℚ))
  { s with
    dpi := dpi
    page_width := page_width
    page_height := page_height
    margin := margin
    content_width := page_width - 2 * margin
    content_height := page_height - 2 * margin }

/-- `PDFCreator.set_quality(quality)`: clamps to 1..100. -/
def PDFCreator.set_quality (s : PDFCreator) (quality : Int) : PDFCreator :=
  { s with quality := max 1 (min 100 quality) }

/-- `PDFCreator.set_margins(margin_inches)`: recomputes the pixel margin at
the current DPI and the content dimensions. -/
def PDFCreator.set_margins (s : PDFCreator) (margin_inches : ℚ) : PDFCreator :=
  let margin := pyInt (margin_inches * (s.dpi : ℚ))
  { s with
    margin := margin
    content_width := s.page_width - 2 * margin
    content_height := s.page_height - 2 * margin }

/-- `PDFCreator.set_page_size(width_inches, height_inches)`. -/
def PDFCreator.set_page_size (s : PDFCreator) (width_inches height_inches : ℚ) :
    PDFCreator :=
  let page_width := pyInt (width_inches * (s.dpi : ℚ))
  let page_height := pyInt (height_inches * (s.dpi : ℚ))
  { s with
    page_width_inches := width_inches
    page_height_inches := height_inches
    page_width := page_width
    page_height := page_height
    content_width := page_width - 2 * s.margin
    content_height := page_height - 2 * s.margin }

/-- States reachable through the public configuration operations with their
documented argument domains (spec §4.5): `dpi > 0`, `jpegQuality` 1..100,
`marginInches ≥ 0`, page inch sizes `> 0`. -/
inductive Reachable : PDFCreator → Prop
  | init (dpi quality : Int) (hd : 0 < dpi) (hq1 : 1 ≤ quality) (hq2 : quality ≤ 100) :
      Reachable (PDFCreator.init dpi quality)
  | set_dpi (s : PDFCreator) (d : Int) (hs : Reachable s) (hd : 0 < d) :
      Reachable (s.set_dpi d)
  | set_quality (s : PDFCreator) (q : Int) (hs : Reachable s)
      (hq1 : 1 ≤ q) (hq2 : q ≤ 100) : Reachable (s.set_quality q)
  | set_margins (s : PDFCreator) (m : ℚ) (hs : Reachable s) (hm : 0 ≤ m) :
      Reachable (s.set_margins m)
  | set_page_size (s : PDFCreator) (w h : ℚ) (hs : Reachable s)
      (hw : 0 < w) (hh : 0 < h) : Reachable (s.set_page_size w h)

/-- States reachable when, additionally, pages are at least one inch in each
direction and every margin/page-size change keeps twice the pixel margin
within the page pixel dimensions. -/
inductive ReachableSafe : PDFCreator → Prop
  | init (dpi quality : Int) (hd : 0 < dpi) :
      ReachableSafe (PDFCreator.init dpi quality)
  | set_dpi (s : PDFCreator) (d : Int) (hs : ReachableSafe s) (hd : 0 < d) :
      ReachableSafe (s.set_dpi d)
  | set_quality (s : PDFCreator) (q : Int) (hs : ReachableSafe s) :
      ReachableSafe (s.set_quality q)
  | set_margins (s : PDFCreator) (m : ℚ) (hs : ReachableSafe s) (hm : 0 ≤ m)
      (hgw : 2 * pyInt (m * (s.dpi : ℚ)) ≤ s.page_width)
      (hgh : 2 * pyInt (m * (s.dpi : ℚ)) ≤ s.page_height) :
      ReachableSafe (s.set_margins m)
  | set_page_size (s : PDFCreator) (w h : ℚ) (hs : ReachableSafe s)
      (hw : 1 ≤ w) (hh : 1 ≤ h)
      (hgw : 2 * s.margin ≤ pyInt (w * (s.dpi : ℚ)))
      (hgh : 2 * s.margin ≤ pyInt (h * (s.dpi : ℚ))) :
      ReachableSafe (s.set_page_size w h)

/-- Content dimension produced by an inch size of at least one inch together
with the default half-inch margin is nonnegative. -/
theorem page_minus_margin_nonneg (w : ℚ) (d : Int) (hw : 1 ≤ w) (hd : 0 < d) :
    0 ≤ pyInt (w * (d : ℚ)) - 2 * pyInt ((1 / 2 : ℚ) * (d : ℚ)) := by
  have hd0 : (0 : ℚ) ≤ (d : ℚ) := by exact_mod_cast le_of_lt hd
  have hq2 : (0 : ℚ) ≤ (1 / 2 : ℚ) * (d : ℚ) := by positivity
  have h2 : ((2 * pyInt ((1 / 2 : ℚ) * (d : ℚ)) : ℤ) : ℚ) ≤ (d : ℚ) := by
    push_cast
    have := pyInt_le ((1 / 2 : ℚ) * (d : ℚ)) hq2
    linarith
  have h2' : 2 * pyInt ((1 / 2 : ℚ) * (d : ℚ)) ≤ d := by exact_mod_cast h2
  have h1 : d ≤ pyInt (w * (d : ℚ)) := by
    have hmul : ((d : ℤ) : ℚ) ≤ w * (d : ℚ) := by
      calc ((d : ℤ) : ℚ) = 1 * (d : ℚ) := by ring
        _ ≤ w * (d : ℚ) := mul_le_mul_of_nonneg_right hw hd0
    have := pyInt_mono (a := ((d : ℤ) : ℚ)) (b := w * (d : ℚ)) (by exact_mod_cast hd0) hmul
    rwa [pyInt_intCast] at this
  omega

/-- The inductive invariant carried along `ReachableSafe`. -/
def SafeInv (s : PDFCreator) : Prop :=
  0 ≤ s.content_width ∧ 0 ≤ s.content_height ∧
  1 ≤ s.page_width_inches ∧ 1 ≤ s.page_height_inches

theorem reachableSafe_inv (s : PDFCreator) (h : ReachableSafe s) : SafeInv s := by
  induction h with
  | init d q hd =>
      refine ⟨?_, ?_, by simp only [PDFCreator.init]; norm_num,
        by simp only [PDFCreator.init]; norm_num⟩
      · exact page_minus_margin_nonneg (827 / 100) d (by norm_num) hd
      · exact page_minus_margin_nonneg (1169 / 100) d (by norm_num) hd
  | set_dpi s d hs hd ih =>
      obtain ⟨_, _, hwi, hhi⟩ := ih
      exact ⟨page_minus_margin_nonneg s.page_width_inches d hwi hd,
        page_minus_margin_nonneg s.page_height_inches d hhi hd, hwi, hhi⟩
  | set_quality s q hs ih => exact ih
  | set_margins s m hs hm hgw hgh ih =>
      obtain ⟨_, _, hwi, hhi⟩ := ih
      exact ⟨by simp only [PDFCreator.set_margins]; omega,
        by simp only [PDFCreator.set_margins]; omega, hwi, hhi⟩
  | set_page_size s w hgt hs hw hh hgw hgh ih =>
      exact ⟨by simp only [PDFCreator.set_page_size]; omega,
        by simp only [PDFCreator.set_page_size]; omega, hw, hh⟩

/-! ## C8: content dimensions -/

/-- C8 counterexample: `set_margins(5.0)` (a documented-domain argument,
`marginInches ≥ 0`) on a default A4 creator at 300 DPI makes
`content_width = 2481 - 2 * 1500 = -519 < 0`, refuting the claimed
invariant over the documented argument domains. -/
theorem content_dims_counterexample :
    Reachable ((PDFCreator.init 300 95).set_margins 5) ∧
    ((PDFCreator.init 300 95).set_margins 5).content_width < 0 := by
  constructor
  · exact Reachable.set_margins _ 5
      (Reachable.init 300 95 (by norm_num) (by norm_num) (by norm_num)) (by norm_num)
  · show pyInt ((827 / 100 : ℚ) * ((300 : Int) : ℚ)) -
        2 * pyInt ((5 : ℚ) * (((PDFCreator.init 300 95).dpi : Int) : ℚ)) < 0
    rw [show ((827 / 100 : ℚ) * ((300 : Int) : ℚ)) = ((2481 : ℤ) : ℚ) by push_cast; norm_num]
    rw [show ((5 : ℚ) * (((PDFCreator.init 300 95).dpi : Int) : ℚ)) = ((1500 : ℤ) : ℚ) by
      show (5 : ℚ) * (((300 : Int) : Int) : ℚ) = ((1500 : ℤ) : ℚ)
      push_cast; norm_num]
    rw [pyInt_intCast, pyInt_intCast]
    norm_num

/-- C8 (amended): content dimensions stay nonnegative for every state
reachable when pages are at least one inch in each direction and every
margin/page-size change keeps twice the pixel margin within the page pixel
dimensions; with only the documented domains the invariant fails (see the
counterexample). -/
theorem content_dims_nonneg (s : PDFCreator) (h : ReachableSafe s) :
    0 ≤ s.content_width ∧ 0 ≤ s.content_height :=
  ⟨(reachableSafe_inv s h).1, (reachableSafe_inv s h).2.1⟩

/-- Witness for C8 (amended) at the default construction `init 300 95`. -/
theorem content_dims_nonneg_witness :
    0 ≤ (PDFCreator.init 300 95).content_width ∧
    0 ≤ (PDFCreator.init 300 95).content_height :=
  content_dims_nonneg _ (ReachableSafe.init 300 95 (by decide))

/-! ## C9: `set_dpi` recomputation and the margin reset -/

theorem pyInt_eq_of_bounds (q : ℚ) (z : ℤ) (h0 : 0 ≤ q) (h1 : (z : ℚ) ≤ q)
    (h2 : q < (z : ℚ) + 1) : pyInt q = z := by
  rw [pyInt_eq_floor q h0]
  refine Int.floor_eq_iff.mpr ⟨h1, ?_⟩
  exact_mod_cast h2

/-- C9 counterexample: starting from the default creator at 300 DPI,
`set_margins(1.0)` gives a 300-pixel margin, but `set_dpi(150)` resets the
margin to `int(0.5 * 150) = 75` pixels (0.5 inches) rather than keeping
`1.0` inches (`int(1.0 * 150) = 150`), so afterwards
`content_width ≠ page_width - 2 * int(1.0 * 150)`. -/
theorem set_dpi_margin_counterexample :
    ((PDFCreator.init 300 95).set_margins 1).margin = 300 ∧
    (((PDFCreator.init 300 95).set_margins 1).set_dpi 150).margin = 75 ∧
    pyInt ((1 : ℚ) * ((150 : Int) : ℚ)) = 150 ∧
    (((PDFCreator.init 300 95).set_margins 1).set_dpi 150).content_width ≠
      (((PDFCreator.init 300 95).set_margins 1).set_dpi 150).page_width -
        2 * pyInt ((1 : ℚ) * ((150 : Int) : ℚ)) := by
  have hpw : pyInt ((827 / 100 : ℚ) * ((150 : Int) : ℚ)) = 1240 :=
    pyInt_eq_of_bounds _ 1240 (by push_cast; norm_num) (by push_cast; norm_num)
      (by push_cast; norm_num)
  have hm : pyInt ((1 / 2 : ℚ) * ((150 : Int) : ℚ)) = 75 :=
    pyInt_eval _ 75 (by push_cast; norm_num)
  have h150 : pyInt ((1 : ℚ) * ((150 : Int) : ℚ)) = 150 :=
    pyInt_eval _ 150 (by push_cast; norm_num)
  refine ⟨?_, ?_, h150, ?_⟩
  · show pyInt ((1 : ℚ) * ((300 : Int) : ℚ)) = 300
    exact pyInt_eval _ 300 (by push_cast; norm_num)
  · exact hm
  · show pyInt ((827 / 100 : ℚ) * ((150 : Int) : ℚ)) -
        2 * pyInt ((1 / 2 : ℚ) * ((150 : Int) : ℚ)) ≠
      pyInt ((827 / 100 : ℚ) * ((150 : Int) : ℚ)) -
        2 * pyInt ((1 : ℚ) * ((150 : Int) : ℚ))
    rw [hpw, hm, h150]
    norm_num

/-- C9 (amended): `set_dpi(d)` recomputes the page pixel dimensions
deterministically from the stored physical page size and the new DPI, leaves
the quality and the stored inch sizes unchanged, and resets the margin to
the default 0.5 inches (`margin = int(0.5 * d)`), so
`content_dim = page_dim - 2 * int(0.5 * d)`; a margin previously set via
`set_margins(m)` does not survive unless `m = 0.5`.  Re-applying the same
DPI is idempotent. -/
theorem set_dpi_recompute (s : PDFCreator) (d : Int) :
    (s.set_dpi d).dpi = d ∧
    (s.set_dpi d).quality = s.quality ∧
    (s.set_dpi d).page_width_inches = s.page_width_inches ∧
    (s.set_dpi d).page_height_inches = s.page_height_inches ∧
    (s.set_dpi d).page_width = pyInt (s.page_width_inches * (d : ℚ)) ∧
    (s.set_dpi d).page_height = pyInt (s.page_height_inches * (d : ℚ)) ∧
    (s.set_dpi d).margin = pyInt ((1 / 2 : ℚ) * (d : ℚ)) ∧
    (s.set_dpi d).content_width = (s.set_dpi d).page_width - 2 * (s.set_dpi d).margin ∧
    (s.set_dpi d).content_height = (s.set_dpi d).page_height - 2 * (s.set_dpi d).margin ∧
    (s.set_dpi d).set_dpi d = s.set_dpi d :=
  ⟨rfl, rfl, rfl, rfl, rfl, rfl, rfl, rfl, rfl, rfl⟩

/-! ## Page fitting (`PDFCreator.resize_to_fit_page` / `resize_to_fill_page`)

Modelled at the level of raster sizes: the content area `(cw, ch)` comes
from the creator state, the image size `(iw, ih)` from the decoded image.
`image.resize((w, h))` produces a raster of size `(w, h)` and
`image.crop((l, t, r, b))` one of size `(r - l, b - t)`; the resampling
filter does not affect sizes.
-/

/-- `scale = min(content_width / img_width, content_height / img_height)`. -/
def fitScale (cw ch iw ih : ℕ) : ℚ := min ((cw : ℚ) / iw) ((ch : ℚ) / ih)

/-- `PDFCreator.resize_to_fit_page(image, preserve_aspect)`: with aspect
preservation `(int(iw*scale), int(ih*scale))`; Python skips the `resize`
call when the size is unchanged, which does not affect the resulting size.
Without aspect preservation the image is stretched to the content area. -/
def resize_to_fit_page (cw ch iw ih : ℕ) (preserve_aspect : Bool) : ℕ × ℕ :=
  if preserve_aspect then
    ((pyInt ((iw : ℚ) * fitScale cw ch iw ih)).toNat,
     (pyInt ((ih : ℚ) * fitScale cw ch iw ih)).toNat)
  else (cw, ch)

/-- `scale = max(content_width / img_width, content_height / img_height)`. -/
def fillScale (cw ch iw ih : ℕ) : ℚ := max ((cw : ℚ) / iw) ((ch : ℚ) / ih)

/-- `new_width = int(img_width * scale)` in `resize_to_fill_page`. -/
def fillScaledW (cw ch iw ih : ℕ) : ℕ :=
  (pyInt ((iw : ℚ) * fillScale cw ch iw ih)).toNat

/-- `new_height = int(img_height * scale)` in `resize_to_fill_page`. -/
def fillScaledH (cw ch iw ih : ℕ) : ℕ :=
  (pyInt ((ih : ℚ) * fillScale cw ch iw ih)).toNat

/-- `PDFCreator.resize_to_fill_page(image, preserve_aspect)`: the final
raster size together with the centre-crop box `(left, top, right, bottom)`
when a crop happened (`left = max(0, (new_width - content_width) // 2)`,
crop size `(right - left, bottom - top) = (content_width, content_height)`). -/
def resize_to_fill_page (cw ch iw ih : ℕ) (preserve_aspect : Bool) :
    (ℕ × ℕ) × Option (Int × Int × Int × Int) :=
  if preserve_aspect then
    let nw := fillScaledW cw ch iw ih
    let nh := fillScaledH cw ch iw ih
    if cw < nw ∨ ch < nh then
      let left : Int := max 0 (((nw : Int) - (cw : Int)) / 2)
      let top : Int := max 0 (((nh : Int) - (ch : Int)) / 2)
      ((cw, ch), some (left, top, left + (cw : Int), top + (ch : Int)))
    else ((nw, nh), none)
  else ((cw, ch), none)

/-! ## C5: fit mode bounds and aspect preservation -/

/-- C5: in fit mode with aspect preservation the output fits the content
area (`w ≤ cw`, `h ≤ ch`) and preserves the aspect ratio within rounding
tolerance (`|w*ih - h*iw|` is less than one source pixel in each direction);
scenario C: a 2000×1000 image against a 1000×1400 content area yields
1000×500. -/
theorem fit_mode_correct (cw ch iw ih : ℕ) (hiw : 0 < iw) (hih : 0 < ih) :
    (resize_to_fit_page cw ch iw ih true).1 ≤ cw ∧
    (resize_to_fit_page cw ch iw ih true).2 ≤ ch ∧
    (((resize_to_fit_page cw ch iw ih true).1 : Int) * (ih : Int) -
        ((resize_to_fit_page cw ch iw ih true).2 : Int) * (iw : Int) < (iw : Int)) ∧
    (((resize_to_fit_page cw ch iw ih true).2 : Int) * (iw : Int) -
        ((resize_to_fit_page cw ch iw ih true).1 : Int) * (ih : Int) < (ih : Int)) ∧
    resize_to_fit_page 1000 1400 2000 1000 true = (1000, 500) := by
  have hiwQ : (0 : ℚ) < (iw : ℚ) := by exact_mod_cast hiw
  have hihQ : (0 : ℚ) < (ih : ℚ) := by exact_mod_cast hih
  set s := fitScale cw ch iw ih with hs_def
  have hs0 : 0 ≤ s := le_min (by positivity) (by positivity)
  have hqw0 : (0 : ℚ) ≤ (iw : ℚ) * s := by positivity
  have hqh0 : (0 : ℚ) ≤ (ih : ℚ) * s := by positivity
  have hW0 : 0 ≤ pyInt ((iw : ℚ) * s) := pyInt_nonneg _ hqw0
  have hH0 : 0 ≤ pyInt ((ih : ℚ) * s) := pyInt_nonneg _ hqh0
  have hWle : ((pyInt ((iw : ℚ) * s) : ℤ) : ℚ) ≤ (iw : ℚ) * s := pyInt_le _ hqw0
  have hHle : ((pyInt ((ih : ℚ) * s) : ℤ) : ℚ) ≤ (ih : ℚ) * s := pyInt_le _ hqh0
  have hWgt : (iw : ℚ) * s < (pyInt ((iw : ℚ) * s) : ℚ) + 1 := by
    exact_mod_cast lt_pyInt_add_one _ hqw0
  have hHgt : (ih : ℚ) * s < (pyInt ((ih : ℚ) * s) : ℚ) + 1 := by
    exact_mod_cast lt_pyInt_add_one _ hqh0
  have hwcw : (iw : ℚ) * s ≤ (cw : ℚ) := by
    have hmin := min_le_left ((cw : ℚ) / iw) ((ch : ℚ) / ih)
    calc (iw : ℚ) * s ≤ (iw : ℚ) * ((cw : ℚ) / iw) :=
          mul_le_mul_of_nonneg_left hmin (le_of_lt hiwQ)
      _ = (cw : ℚ) := by field_simp
  have hhch : (ih : ℚ) * s ≤ (ch : ℚ) := by
    have hmin := min_le_right ((cw : ℚ) / iw) ((ch : ℚ) / ih)
    calc (ih : ℚ) * s ≤ (ih : ℚ) * ((ch : ℚ) / ih) :=
          mul_le_mul_of_nonneg_left hmin (le_of_lt hihQ)
      _ = (ch : ℚ) := by field_simp
  have hfst : (resize_to_fit_page cw ch iw ih true).1 =
      (pyInt ((iw : ℚ) * s)).toNat := rfl
  have hsnd : (resize_to_fit_page cw ch iw ih true).2 =
      (pyInt ((ih : ℚ) * s)).toNat := rfl
  have hWcast : (((pyInt ((iw : ℚ) * s)).toNat : ℤ)) = pyInt ((iw : ℚ) * s) :=
    Int.toNat_of_nonneg hW0
  have hHcast : (((pyInt ((ih : ℚ) * s)).toNat : ℤ)) = pyInt ((ih : ℚ) * s) :=
    Int.toNat_of_nonneg hH0
  refine ⟨?_, ?_, ?_, ?_, ?_⟩
  · rw [hfst]
    rw [Int.toNat_le]
    have : ((pyInt ((iw : ℚ) * s) : ℤ) : ℚ) ≤ ((cw : ℤ) : ℚ) := by
      push_cast
      exact le_trans hWle hwcw
    exact_mod_cast this
  · rw [hsnd]
    rw [Int.toNat_le]
    have : ((pyInt ((ih : ℚ) * s) : ℤ) : ℚ) ≤ ((ch : ℤ) : ℚ) := by
      push_cast
      exact le_trans hHle hhch
    exact_mod_cast this
  · rw [hfst, hsnd, hWcast, hHcast]
    have e1 : ((pyInt ((iw : ℚ) * s) : ℤ) : ℚ) * (ih : ℚ) ≤ ((iw : ℚ) * s) * (ih : ℚ) :=
      mul_le_mul_of_nonneg_right hWle (by positivity)
    have e2 : ((ih : ℚ) * s - 1) * (iw : ℚ) < ((pyInt ((ih : ℚ) * s) : ℤ) : ℚ) * (iw : ℚ) :=
      mul_lt_mul_of_pos_right (by linarith) hiwQ
    have e3 : ((iw : ℚ) * s) * (ih : ℚ) - ((ih : ℚ) * s - 1) * (iw : ℚ) = (iw : ℚ) := by ring
    have : ((pyInt ((iw : ℚ) * s) : ℤ) : ℚ) * (ih : ℚ) -
        ((pyInt ((ih : ℚ) * s) : ℤ) : ℚ) * (iw : ℚ) < (iw : ℚ) := by linarith
    exact_mod_cast this
  · rw [hfst, hsnd, hWcast, hHcast]
    have e1 : ((pyInt ((ih : ℚ) * s) : ℤ) : ℚ) * (iw : ℚ) ≤ ((ih : ℚ) * s) * (iw : ℚ) :=
      mul_le_mul_of_nonneg_right hHle (by positivity)
    have e2 : ((iw : ℚ) * s - 1) * (ih : ℚ) < ((pyInt ((iw : ℚ) * s) : ℤ) : ℚ) * (ih : ℚ) :=
      mul_lt_mul_of_pos_right (by linarith) hihQ
    have e3 : ((ih : ℚ) * s) * (iw : ℚ) - ((iw : ℚ) * s - 1) * (ih : ℚ) = (ih : ℚ) := by ring
    have : ((pyInt ((ih : ℚ) * s) : ℤ) : ℚ) * (iw : ℚ) -
        ((pyInt ((iw : ℚ) * s) : ℤ) : ℚ) * (ih : ℚ) < (ih : ℚ) := by linarith
    exact_mod_cast this
  · have hsc : fitScale 1000 1400 2000 1000 = 1 / 2 := by
      rw [fitScale, min_eq_left (by push_cast; norm_num)]
      push_cast
      norm_num
    show ((pyInt (((2000 : ℕ) : ℚ) * fitScale 1000 1400 2000 1000)).toNat,
          (pyInt (((1000 : ℕ) : ℚ) * fitScale 1000 1400 2000 1000)).toNat) = (1000, 500)
    rw [hsc]
    rw [show ((2000 : ℕ) : ℚ) * (1 / 2 : ℚ) = ((1000 : ℤ) : ℚ) by push_cast; norm_num]
    rw [show ((1000 : ℕ) : ℚ) * (1 / 2 : ℚ) = ((500 : ℤ) : ℚ) by push_cast; norm_num]
    rw [pyInt_intCast, pyInt_intCast]
    rfl

/-- Witness for C5 at scenario C's inputs, applying the theorem at
`(cw, ch, iw, ih) = (1000, 1400, 2000, 1000)`. -/
theorem fit_mode_correct_witness :
    ((0 : ℕ) < 2000) ∧
    (resize_to_fit_page 1000 1400 2000 1000 true).1 ≤ 1000 ∧
    (resize_to_fit_page 1000 1400 2000 1000 true).2 ≤ 1400 ∧
    resize_to_fit_page 1000 1400 2000 1000 true = (1000, 500) := by
  have h := fit_mode_correct 1000 1400 2000 1000 (by decide) (by decide)
  exact ⟨by decide, h.1, h.2.1, h.2.2.2.2⟩

/-! ## C6: fill mode output size and centre crop -/

theorem le_fillScaledW (cw ch iw ih : ℕ) (hiw : 0 < iw) :
    cw ≤ fillScaledW cw ch iw ih := by
  have hiwQ : (0 : ℚ) < (iw : ℚ) := by exact_mod_cast hiw
  have hs : (cw : ℚ) / iw ≤ fillScale cw ch iw ih := le_max_left _ _
  have h1 : ((cw : ℕ) : ℚ) ≤ (iw : ℚ) * fillScale cw ch iw ih := by
    calc ((cw : ℕ) : ℚ) = (iw : ℚ) * ((cw : ℚ) / iw) := by field_simp
      _ ≤ (iw : ℚ) * fillScale cw ch iw ih :=
          mul_le_mul_of_nonneg_left hs (le_of_lt hiwQ)
  have h2 : ((cw : ℕ) : ℤ) ≤ pyInt ((iw : ℚ) * fillScale cw ch iw ih) := by
    have := pyInt_mono (a := ((cw : ℕ) : ℚ)) (b := (iw : ℚ) * fillScale cw ch iw ih)
      (by positivity) h1
    rwa [pyInt_natCast] at this
  have h0 : 0 ≤ pyInt ((iw : ℚ) * fillScale cw ch iw ih) :=
    le_trans (by exact_mod_cast Nat.zero_le cw) h2
  rw [fillScaledW]
  exact (Int.le_toNat h0).mpr h2

theorem le_fillScaledH (cw ch iw ih : ℕ) (hih : 0 < ih) :
    ch ≤ fillScaledH cw ch iw ih := by
  have hihQ : (0 : ℚ) < (ih : ℚ) := by exact_mod_cast hih
  have hs : (ch : ℚ) / ih ≤ fillScale cw ch iw ih := le_max_right _ _
  have h1 : ((ch : ℕ) : ℚ) ≤ (ih : ℚ) * fillScale cw ch iw ih := by
    calc ((ch : ℕ) : ℚ) = (ih : ℚ) * ((ch : ℚ) / ih) := by field_simp
      _ ≤ (ih : ℚ) * fillScale cw ch iw ih :=
          mul_le_mul_of_nonneg_left hs (le_of_lt hihQ)
  have h2 : ((ch : ℕ) : ℤ) ≤ pyInt ((ih : ℚ) * fillScale cw ch iw ih) := by
    have := pyInt_mono (a := ((ch : ℕ) : ℚ)) (b := (ih : ℚ) * fillScale cw ch iw ih)
      (by positivity) h1
    rwa [pyInt_natCast] at this
  have h0 : 0 ≤ pyInt ((ih : ℚ) * fillScale cw ch iw ih) :=
    le_trans (by exact_mod_cast Nat.zero_le ch) h2
  rw [fillScaledH]
  exact (Int.le_toNat h0).mpr h2

/-- C6: in fill mode with aspect preservation the output raster is exactly
`(content_width, content_height)`, and when a crop is performed its origin
is the floored centre `((scaledW - contentW)/2, (scaledH - contentH)/2)`
(the `max 0` guard in the code is redundant because the scaled size is at
least the content size); scenario D: a 2000×1000 image against a 1000×1400
content area is resized to 2800×1400 and centre-cropped with box
`(900, 0, 1900, 1400)`. -/
theorem fill_mode_exact (cw ch iw ih : ℕ) (hiw : 0 < iw) (hih : 0 < ih) :
    (resize_to_fill_page cw ch iw ih true).1 = (cw, ch) ∧
    (∀ box ∈ (resize_to_fill_page cw ch iw ih true).2,
      box = (((fillScaledW cw ch iw ih : Int) - (cw : Int)) / 2,
             ((fillScaledH cw ch iw ih : Int) - (ch : Int)) / 2,
             (((fillScaledW cw ch iw ih : Int) - (cw : Int)) / 2) + (cw : Int),
             (((fillScaledH cw ch iw ih : Int) - (ch : Int)) / 2) + (ch : Int))) ∧
    resize_to_fill_page 1000 1400 2000 1000 true =
      ((1000, 1400), some (900, 0, 1900, 1400)) := by
  have hW := le_fillScaledW cw ch iw ih hiw
  have hH := le_fillScaledH cw ch iw ih hih
  have hmaxW : max 0 (((fillScaledW cw ch iw ih : Int) - (cw : Int)) / 2) =
      ((fillScaledW cw ch iw ih : Int) - (cw : Int)) / 2 :=
    max_eq_right (Int.ediv_nonneg (by omega) (by norm_num))
  have hmaxH : max 0 (((fillScaledH cw ch iw ih : Int) - (ch : Int)) / 2) =
      ((fillScaledH cw ch iw ih : Int) - (ch : Int)) / 2 :=
    max_eq_right (Int.ediv_nonneg (by omega) (by norm_num))
  refine ⟨?_, ?_, ?_⟩
  · by_cases hcrop : cw < fillScaledW cw ch iw ih ∨ ch < fillScaledH cw ch iw ih
    · simp only [resize_to_fill_page, if_pos hcrop, if_true]
    · simp only [resize_to_fill_page, if_neg hcrop, if_true]
      push_neg at hcrop
      rw [le_antisymm hcrop.1 hW, le_antisymm hcrop.2 hH]
  · intro box hbox
    by_cases hcrop : cw < fillScaledW cw ch iw ih ∨ ch < fillScaledH cw ch iw ih
    · simp only [resize_to_fill_page, if_pos hcrop, if_true, Option.mem_def,
        Option.some.injEq] at hbox
      rw [← hbox, hmaxW, hmaxH]
    · simp only [resize_to_fill_page, if_neg hcrop, if_true, Option.mem_def] at hbox
      exact absurd hbox (by simp)
  · have hsc : fillScale 1000 1400 2000 1000 = 7 / 5 := by
      rw [fillScale, max_eq_right (by push_cast; norm_num)]
      push_cast
      norm_num
    have hnw : fillScaledW 1000 1400 2000 1000 = 2800 := by
      rw [fillScaledW, hsc]
      rw [show ((2000 : ℕ) : ℚ) * (7 / 5 : ℚ) = ((2800 : ℤ) : ℚ) by push_cast; norm_num]
      rw [pyInt_intCast]
      rfl
    have hnh : fillScaledH 1000 1400 2000 1000 = 1400 := by
      rw [fillScaledH, hsc]
      rw [show ((1000 : ℕ) : ℚ) * (7 / 5 : ℚ) = ((1400 : ℤ) : ℚ) by push_cast; norm_num]
      rw [pyInt_intCast]
      rfl
    simp only [resize_to_fill_page, hnw, hnh]
    decide

/-- Witness for C6 at scenario D's inputs, applying the theorem at
`(cw, ch, iw, ih) = (1000, 1400, 2000, 1000)`. -/
theorem fill_mode_exact_witness :
    (resize_to_fill_page 1000 1400 2000 1000 true).1 = (1000, 1400) ∧
    resize_to_fill_page 1000 1400 2000 1000 true =
      ((1000, 1400), some (900, 0, 1900, 1400)) := by
  have h := fill_mode_exact 1000 1400 2000 1000 (by decide) (by decide)
  exact ⟨h.1, h.2.2⟩

/-! ## `PDFCreator.create_pdf` (C7, C10)

Modelled at the level of page raster sizes over an abstract picture of the
collaborating environment: which paths exist on disk and the pixel size of
each decodable image after EXIF transposition (the colour-mode conversion
composites transparency onto white but never changes the raster size).
`Image.save` runs only after the whole loop succeeds, so an
`Except.error` result means an exception was raised before any write: no
output document is produced.
-/

inductive FitMode
  | fit
  | fill
  | original

/-- Errors raised by `create_pdf`: `valueError msg` models
`ValueError("No images provided")`, `fileNotFound p` models
`FileNotFoundError(f"Image file not found: {p}")` (reported with the
offending path), `noValidImages` the trailing
`Exception("No valid images to process")`. -/
inductive PdfError
  | valueError (msg : String)
  | fileNotFound (path : String)
  | noValidImages

/-- Abstract environment of one export job. -/
structure FileSystem where
  pathExists : String → Bool
  dims : String → ℕ × ℕ

/-- Raster size of one processed page: `original` keeps the decoded size,
`fill` and `fit` call the resize helpers with the creator's content area. -/
def processOne (fs : FileSystem) (cw ch : ℕ) (mode : FitMode)
    (preserve_aspect : Bool) (p : String) : ℕ × ℕ :=
  match mode with
  | FitMode.original => fs.dims p
  | FitMode.fill => (resize_to_fill_page cw ch (fs.dims p).1 (fs.dims p).2 preserve_aspect).1
  | FitMode.fit => resize_to_fit_page cw ch (fs.dims p).1 (fs.dims p).2 preserve_aspect

/-- The per-image loop of `create_pdf`: each path is checked with
`os.path.exists` and processed in order; the first missing path raises
`FileNotFoundError` and aborts the whole loop. -/
def processImages (fs : FileSystem) (cw ch : ℕ) (mode : FitMode)
    (preserve_aspect : Bool) : List String → Except PdfError (List (ℕ × ℕ))
  | [] => Except.ok []
  | p :: ps =>
      if fs.pathExists p then
        match processImages fs cw ch mode preserve_aspect ps with
        | Except.ok rest => Except.ok (processOne fs cw ch mode preserve_aspect p :: rest)
        | Except.error e => Except.error e
      else Except.error (PdfError.fileNotFound p)

/-- `PDFCreator.create_pdf(image_paths, output_path, fit_mode,
preserve_aspect)`: an empty path list raises
`ValueError("No images provided")` before any processing; otherwise the
loop runs and, on success, the ordered page rasters are written to the
output document in one final `save`. -/
def create_pdf (fs : FileSystem) (cw ch : ℕ) (image_paths : List String)
    (mode : FitMode) (preserve_aspect : Bool) : Except PdfError (List (ℕ × ℕ)) :=
  if image_paths.isEmpty then Except.error (PdfError.valueError "No images provided")
  else
    match processImages fs cw ch mode preserve_aspect image_paths with
    | Except.error e => Except.error e
    | Except.ok processed =>
        if processed.isEmpty then Except.error PdfError.noValidImages
        else Except.ok processed

theorem processImages_missing (fs : FileSystem) (cw ch : ℕ) (mode : FitMode)
    (pa : Bool) :
    ∀ (paths : List String) (q : String),
      paths.find? (fun p => !fs.pathExists p) = some q →
      processImages fs cw ch mode pa paths = Except.error (PdfError.fileNotFound q)
  | [], q, h => by simp [List.find?] at h
  | p :: ps, q, h => by
      cases hp : fs.pathExists p with
      | true =>
          have hps : ps.find? (fun x => !fs.pathExists x) = some q := by
            rw [List.find?_cons_of_neg _ (by simp [hp])] at h
            exact h
          simp only [processImages, hp, if_true,
            processImages_missing fs cw ch mode pa ps q hps]
      | false =>
          have hq : p = q := by
            rw [List.find?_cons_of_pos _ (by simp [hp])] at h
            exact Option.some.inj h
          subst hq
          simp only [processImages, hp, Bool.false_eq_true, if_false]

/-- C7: whenever at least one path of a non-empty job does not exist, the
export aborts with `FileNotFoundError` reporting the first offending path,
and since the error is raised before the final `save`, no output document
is produced (the job never reaches the write). -/
theorem create_pdf_missing_source (fs : FileSystem) (cw ch : ℕ)
    (image_paths : List String) (mode : FitMode) (pa : Bool) (q : String)
    (hq : image_paths.find? (fun p => !fs.pathExists p) = some q) :
    create_pdf fs cw ch image_paths mode pa =
      Except.error (PdfError.fileNotFound q) := by
  have hne : image_paths.isEmpty = false := by
    cases image_paths with
    | nil => simp [List.find?] at hq
    | cons a as => rfl
  rw [create_pdf, hne, processImages_missing fs cw ch mode pa image_paths q hq]
  rfl

/-- Witness for C7: three paths of which the second is missing; the job
reports the missing path `"b"` and yields no document. -/
theorem create_pdf_missing_source_witness :
    create_pdf ⟨fun p => !(p == "b"), fun _ => (100, 100)⟩ 2481 3207
      ["a", "b", "c"] FitMode.fit true =
      Except.error (PdfError.fileNotFound "b") :=
  create_pdf_missing_source _ 2481 3207 ["a", "b", "c"] FitMode.fit true "b" (by decide)

/-- C10: for every destination and fit mode, `create_pdf` with an empty
path list raises `ValueError("No images provided")` before any processing
and produces no output document. -/
theorem create_pdf_empty (fs : FileSystem) (cw ch : ℕ) (mode : FitMode)
    (pa : Bool) :
    create_pdf fs cw ch [] mode pa =
      Except.error (PdfError.valueError "No images provided") := rfl

end Pic2Pdf
